import Mathlib

set_option maxHeartbeats 1000000

set_option maxRecDepth 100000

/- Shallow embedding of the mkdocs-openapi-docs-gen plugin
   (src/openapi_docs_gen/plugin.py).  Text is modelled as List Char.
   Python string helpers (strip, lower, splitlines) and the two regular
   expressions of the source are modelled character by character; machine
   behaviour of the regular expressions (anchored match, greedy character
   classes, non greedy body in DOTALL mode) is reproduced by explicit
   list recursion.  Only the ASCII fragment of the Unicode character
   classes is spelled out; every input appearing in the development is
   ASCII. -/

/-- Python regex class backslash-s and str.strip whitespace (ASCII part). -/

def pyIsSpace (c : Char) : Bool :=
  c = ' ' || c = '\t' || c = '\n' || c = '\r' || c = '\x0b' || c = '\x0c'

/-- Python regex class backslash-w (ASCII part). -/

def pyIsWord (c : Char) : Bool :=
  ('a' ≤ c && c ≤ 'z') || ('A' ≤ c && c ≤ 'Z') || ('0' ≤ c && c ≤ '9') || c = '_'

/-- Line terminators recognised by Python str.splitlines. -/

def pyIsLineBreak (c : Char) : Bool :=
  c = '\n' || c = '\r' || c = '\x0b' || c = '\x0c' || c = '\x1c' || c = '\x1d' ||
  c = '\x1e' || c = '\x85' || c = '\u2028' || c = '\u2029'

/-- Python str.strip(): drop whitespace from both ends. -/

def pyStrip (s : List Char) : List Char :=
  ((s.dropWhile pyIsSpace).reverse.dropWhile pyIsSpace).reverse

/-- Python str.lower() (ASCII). -/

def pyLower (s : List Char) : List Char :=
  s.map Char.toLower

/-- Worker for pySplitLines: acc holds the current line reversed.  At a
terminator the line is emitted, a CR LF pair counting as one
terminator; at the end of input a non-empty trailing line is emitted
and an empty one is not. -/

def splitLinesAux : List Char → List Char → List (List Char)
  | [], acc => if acc.isEmpty then [] else [acc.reverse]
  | c :: r, acc =>
    if pyIsLineBreak c then
      match r with
      | [] => acc.reverse :: splitLinesAux [] []
      | n :: r2 =>
        if c = '\r' && n = '\n' then acc.reverse :: splitLinesAux r2 []
        else acc.reverse :: splitLinesAux (n :: r2) []
    else splitLinesAux r (c :: acc)

/-- Python str.splitlines(): split at line terminators, treating a
CR LF pair as one terminator; a trailing terminator yields no extra
empty line, and the empty string yields no lines at all. -/

def pySplitLines (s : List Char) : List (List Char) :=
  splitLinesAux s []

/-- Source line 65: the key pattern, MULTILINE, applied per line with
re.match.  It matches leading whitespace, a non-empty maximal word run,
a colon, then whitespace, capturing the remainder as the value. -/

def matchArg (l : List Char) : Option (List Char × List Char) :=
  let r := l.dropWhile pyIsSpace
  let k := r.takeWhile pyIsWord
  let rest := r.dropWhile pyIsWord
  if k.isEmpty then none
  else
    match rest with
    | c :: v => if c = ':' then some (k, v.dropWhile pyIsSpace) else none
    | [] => none

/-- Source line 66: the continuation pattern, exactly four whitespace
characters followed by at least one character, capturing the rest. -/

def matchCont (l : List Char) : Option (List Char) :=
  match l with
  | a :: b :: c :: d :: rest =>
    if pyIsSpace a && pyIsSpace b && pyIsSpace c && pyIsSpace d && !rest.isEmpty then
      some rest
    else none
  | _ => none

/-- A raw value in the arguments dict built by extract_arguments:
either a stripped string or a list of strings (only the tips key ever
holds a list). -/

inductive RawVal where
  | str : List Char → RawVal
  | lst : List (List Char) → RawVal
deriving DecidableEq

/-- Python dict lookup d.get(k): first (and only) binding of the key. -/

def dictGet {α : Type} (m : List (List Char × α)) (k : List Char) : Option α :=
  (m.find? (fun p => p.1 = k)).map (fun p => p.2)

/-- Python dict assignment d[k] = v: replace in place when the key is
present, otherwise append, preserving insertion order. -/

def setKey {α : Type} (m : List (List Char × α)) (k : List Char) (v : α) :
    List (List Char × α) :=
  if (m.find? (fun p => p.1 = k)).isSome then
    m.map (fun p => if p.1 = k then (k, v) else p)
  else m ++ [(k, v)]

/-- The per-line loop of extract_arguments (source lines 74 to 89):
on a key match, record the key as current; store the stripped value if
non-blank, or an empty-list placeholder for a blank tips key; otherwise,
while the current key is tips, append matching continuation lines
(stripped) to the tips accumulator. -/

def extractLoop :
    List (List Char) → List (List Char × RawVal) → List (List Char) →
    Option (List Char) → List (List Char × RawVal) × List (List Char)
  | [], args, tips, _ => (args, tips)
  | l :: ls, args, tips, ck =>
    match matchArg l with
    | some (k, v) =>
      let args' :=
        if !(pyStrip v).isEmpty then setKey args k (.str (pyStrip v))
        else if k = "tips".data then setKey args k (.lst [])
        else args
      extractLoop ls args' tips (some k)
    | none =>
      if ck = some "tips".data then
        match matchCont l with
        | some t => extractLoop ls args (tips ++ [pyStrip t]) ck
        | none => extractLoop ls args tips ck
      else extractLoop ls args tips ck

/-- The raw arguments dict produced by extract_arguments before
validation (source lines 68 to 93), including the final overwrite of
the tips key when the accumulator is non-empty. -/

def extractRaw (tag_content : List Char) : List (List Char × RawVal) :=
  let r := extractLoop (pySplitLines tag_content) [] [] none
  if !r.2.isEmpty then setKey r.1 "tips".data (.lst r.2) else r.1

/-- The pydantic model of source lines 12 to 18: required path, four
optional fields. -/

structure EndpointArguments where
  path : List Char
  http_method : Option (List Char)
  endpoint_title : Option (List Char)
  endpoint_icon : Option (List Char)
  tips : Option (List (List Char))
deriving DecidableEq

/-- Error values distinguishing the Python exception classes that can
cross the boundaries modelled here. -/

inductive PyErr where
  | valueError : List Char → PyErr
  | attributeError : List Char → PyErr
  | typeError : List Char → PyErr
deriving DecidableEq

/-- One pydantic field error rendered as text.  The real library text
is longer; this keeps the parts the surrounding code relies on, namely
the model name, the offending field name and the reason. -/

def fieldErrMsg (field reason : List Char) : List Char :=
  "1 validation error for EndpointArguments\n".data ++ field ++ "\n  ".data ++ reason

/-- Validation of an optional string field: absent is fine, a string
value is accepted, a list value is rejected. -/

def optStrField (m : List (List Char × RawVal)) (field : List Char) :
    Except (List Char) (Option (List Char)) :=
  match dictGet m field with
  | none => .ok none
  | some (.str s) => .ok (some s)
  | some (.lst _) => .error (fieldErrMsg field "Input should be a valid string".data)

/-- Pydantic validation of EndpointArguments(**arguments): path is
required and must be a string; http_method, endpoint_title and
endpoint_icon are optional strings; tips is an optional list of
strings; keys other than these five are ignored. -/

def validateArgs (m : List (List Char × RawVal)) :
    Except (List Char) EndpointArguments := do
  let path ←
    match dictGet m "path".data with
    | none => Except.error (fieldErrMsg "path".data "Field required".data)
    | some (.str s) => Except.ok s
    | some (.lst _) =>
      Except.error (fieldErrMsg "path".data "Input should be a valid string".data)
  let hm ← optStrField m "http_method".data
  let et ← optStrField m "endpoint_title".data
  let ei ← optStrField m "endpoint_icon".data
  let tips ←
    match dictGet m "tips".data with
    | none => Except.ok none
    | some (.lst l) => Except.ok (some l)
    | some (.str _) =>
      Except.error (fieldErrMsg "tips".data "Input should be a valid list".data)
  Except.ok ⟨path, hm, et, ei, tips⟩

/-- Source lines 61 to 98: extract_arguments parses the block content
and validates it, re-raising a pydantic ValidationError as a ValueError
with the wrapping message of line 98. -/

def extract_arguments (tag_content : List Char) : Except PyErr EndpointArguments :=
  match validateArgs (extractRaw tag_content) with
  | .ok a => .ok a
  | .error msg =>
    .error (.valueError ("Invalid arguments in docs.endpoint: ".data ++ msg))

/-- Python truthiness of an optional string (None and the empty string
are falsy). -/

def pyTruthyStr : Option (List Char) → Bool
  | none => false
  | some s => !s.isEmpty

/-- Python truthiness of an optional list (None and the empty list are
falsy). -/

def pyTruthyList : Option (List (List Char)) → Bool
  | none => false
  | some l => !l.isEmpty

/-- Rendering of an optional string inside an f-string: None prints as
the four letters None. -/

def pyOptStr : Option (List Char) → List Char
  | none => "None".data
  | some s => s

/-- An operation descriptor of the resolved OpenAPI tree; the code
reads exactly its summary and description entries. -/

structure Operation where
  summary : List Char
  description : List Char
deriving DecidableEq

/-- The resolved specification tree: paths mapping to method mappings
to operation descriptors, as loaded by on_config. -/

structure ResolvedSpec where
  paths : List (List Char × List (List Char × Operation))

/-- The body lines of the tips admonition, one four-space indented line
per tip (source lines 127 to 128). -/

def tipsLines : List (List Char) → List Char
  | [] => []
  | t :: ts => "    ".data ++ t ++ "\n".data ++ tipsLines ts

/-- Source lines 121 to 129: generate_tips_section renders the tip
callout, or nothing for an empty list. -/

def generate_tips_section (tips : List (List Char)) : List Char :=
  if tips.isEmpty then []
  else "!!! tip \"Method Tips\"\n".data ++ tipsLines tips

/-- Source lines 131 to 154: generate_endpoint_docs.  Line 135 looks up
the path, then calls .get on the result; a missing path therefore
raises AttributeError on the NoneType .get attribute before the method
is even lowercased, and an absent http_method raises AttributeError on
the NoneType .lower attribute.  A method missing under the path leaves
method_spec as None and the subscript on line 143 raises TypeError.
Exception texts are modelled without the quote characters of the real
Python messages. -/

def generate_endpoint_docs (spec : ResolvedSpec) (args : EndpointArguments) :
    Except PyErr (List Char) :=
  match dictGet spec.paths args.path with
  | none => .error (.attributeError "NoneType object has no attribute get".data)
  | some methods =>
    match args.http_method with
    | none => .error (.attributeError "NoneType object has no attribute lower".data)
    | some hm =>
      match dictGet methods (pyLower hm) with
      | none => .error (.typeError "NoneType object is not subscriptable".data)
      | some op =>
        let title :=
          if pyTruthyStr args.endpoint_title then
            "## <icon class=\"".data ++ pyOptStr args.endpoint_icon ++
              "\" />&nbsp; ".data ++ pyOptStr args.endpoint_title ++
              " \x7b: data-toc-label=\"".data ++ pyOptStr args.endpoint_title ++
              "\" : .custom-header\x7d\n".data
          else []
        let disp := if (pyLower hm).isEmpty then "any".data else pyLower hm
        let hmDisp := if hm.isEmpty then "ANY".data else hm
        let h3 :=
          "### <span class=\"http-".data ++ disp ++ "\">".data ++ hmDisp ++
            "</span>` ".data ++ args.path ++ "` -- ".data ++ op.summary ++
            " \x7b : data-toc-label=\"".data ++ hm ++ " ".data ++ op.summary ++
            "\" : .styled-as-h2 \x7d\n\n".data
        let desc := op.description ++ "\n\n".data
        let tipsSec :=
          if pyTruthyList args.tips then
            generate_tips_section (args.tips.getD []) ++ "\n\n".data
          else []
        .ok (title ++ h3 ++ desc ++ tipsSec)

/-- Split a text at the first occurrence of a pattern, returning the
part before it and the part after it. -/

def splitFirst (pat : List Char) : List Char → Option (List Char × List Char)
  | [] => if pat.isEmpty then some ([], []) else none
  | c :: cs =>
    if pat.isPrefixOf (c :: cs) then some ([], (c :: cs).drop pat.length)
    else
      match splitFirst pat cs with
      | some (pre, post) => some (c :: pre, post)
      | none => none

/-- Contiguous containment, via splitFirst. -/

def containsSeq (pat s : List Char) : Bool :=
  (splitFirst pat s).isSome

/-- The literal before the non greedy group of the block regular
expression on source line 105. -/

def openMarker : List Char := "::: docs.endpoint\n".data

/-- The literal after the non greedy group of the block regular
expression on source line 105. -/

def closeMarker : List Char := "\n:::".data

/-- Worker for the substitution of source line 119, with a fuel
argument making the recursion structural; the wrapper supplies enough
fuel for the fuel to never run out.  Scanning from the left, each match
runs from an occurrence of the open marker to the nearest following
occurrence of the close marker; the replacement function is applied to
the non greedy group between them, an exception from it propagating
out, and scanning resumes after the consumed match. -/

def subBlocksF (repl : List Char → Except PyErr (List Char)) :
    Nat → List Char → Except PyErr (List Char)
  | 0, s => .ok s
  | fuel + 1, s =>
    match splitFirst openMarker s with
    | none => .ok s
    | some (pre, tail) =>
      match splitFirst closeMarker tail with
      | none => .ok s
      | some (body, rest) =>
        match repl body with
        | .error e => .error e
        | .ok r =>
          match subBlocksF repl fuel rest with
          | .error e => .error e
          | .ok t => .ok (pre ++ r ++ t)

/-- re.sub of the block pattern over a document with a replacement
function that may raise. -/

def subBlocks (repl : List Char → Except PyErr (List Char)) (s : List Char) :
    Except PyErr (List Char) :=
  subBlocksF repl (s.length + 1) s

/-- Whether the block regular expression matches anywhere in a text. -/

def hasBlock (s : List Char) : Bool :=
  match splitFirst openMarker s with
  | none => false
  | some (_, tail) => (splitFirst closeMarker tail).isSome

/-- Source lines 107 to 116: the per match replacement closure.  It
converts a ValueError from extraction or generation into the inline
error marker text; any other exception propagates. -/

def replace_docs_endpoint (spec : ResolvedSpec) (body : List Char) :
    Except PyErr (List Char) :=
  match extract_arguments body with
  | .ok args =>
    match generate_endpoint_docs spec args with
    | .ok s => .ok s
    | .error (.valueError m) =>
      .ok ("**Error parsing docs.endpoint**: ".data ++ m)
    | .error e => .error e
  | .error (.valueError m) =>
    .ok ("**Error parsing docs.endpoint**: ".data ++ m)
  | .error e => .error e

/-- Source lines 100 to 119: on_page_markdown substitutes every match
of the block pattern in the page markdown. -/

def on_page_markdown (spec : ResolvedSpec) (markdown : List Char) :
    Except PyErr (List Char) :=
  subBlocks (replace_docs_endpoint spec) markdown

/-- The one-path one-method resolved specification used by the concrete
scenarios of the specification document. -/

def specUsers : ResolvedSpec :=
  ⟨[("/users".data,
     [("get".data, ⟨"List users".data, "Returns all users.".data⟩)])]⟩

/-- The pattern occurs in s starting at index i. -/

def occursAt (pat s : List Char) (i : Nat) : Prop :=
  pat.isPrefixOf (s.drop i) = true

/-- A text has no break characters (it stays one line under
splitlines). -/

def noBreaks (s : List Char) : Bool :=
  s.all (fun c => !(pyIsLineBreak c))

/-- The five field names of the pydantic model; every other key is
ignored by validation. -/

def recognizedKeys : List (List Char) :=
  ["path".data, "http_method".data, "endpoint_title".data, "endpoint_icon".data,
   "tips".data]

/-- A line that parses as a path key with a non-blank value. -/

def pathKeyLine (l : List Char) : Bool :=
  match matchArg l with
  | some (k, v) => k = "path".data && !(pyStrip v).isEmpty
  | none => false

/-- A line that parses as a key line whose key is none of the five
recognized fields, and that carries no line terminator. -/

def junkLine (l : List Char) : Bool :=
  match matchArg l with
  | some (k, _) => !(recognizedKeys.contains k) && noBreaks l
  | none => false

/-- A tip content: non-empty, free of line terminators, and not itself
shaped like a key line once indented by four spaces. -/

def goodTip (t : List Char) : Bool :=
  !t.isEmpty && noBreaks t && (matchArg ("    ".data ++ t)).isNone

/-- The wrapped message of the ValueError raised for a block whose
arguments lack the required path field. -/

def missingPathMsg : List Char :=
  "Invalid arguments in docs.endpoint: ".data ++
    fieldErrMsg "path".data "Field required".data

/-- The inline error marker text built on source line 116 from a
caught ValueError. -/

def errMark (m : List Char) : List Char :=
  "**Error parsing docs.endpoint**: ".data ++ m

/-- Join lines, each preceded by a newline. -/

def joinLines : List (List Char) → List Char
  | [] => []
  | l :: ls => '\n' :: (l ++ joinLines ls)

/-- Join tip contents into four-space indented continuation lines
separated by newlines, without a trailing newline. -/

def contLines : List (List Char) → List Char
  | [] => []
  | [t] => "    ".data ++ t
  | t :: ts => ("    ".data ++ t) ++ '\n' :: contLines ts

/-- The fragment rendered for a block with path /users and method GET
against specUsers, with no title and no tips. -/

def fragUsers : List Char :=
  "### <span class=\"http-get\">GET</span>` /users` -- List users \x7b : data-toc-label=\"GET List users\" : .styled-as-h2 \x7d\n\nReturns all users.\n\n".data

/-- The method and path heading line of fragUsers. -/

def headingUsers : List Char :=
  "### <span class=\"http-get\">GET</span>` /users` -- List users \x7b : data-toc-label=\"GET List users\" : .styled-as-h2 \x7d".data

instance (pat s : List Char) (i : Nat) : Decidable (occursAt pat s i) :=
  inferInstanceAs (Decidable (_ = true))

theorem length_dropWhile_le (p : Char → Bool) (s : List Char) :
    (s.dropWhile p).length ≤ s.length := by
  induction s with
  | nil => simp [List.dropWhile]
  | cons c cs ih =>
    simp only [List.dropWhile]
    cases p c <;> simp <;> omega

theorem splitFirst_append (pat s pre post : List Char)
    (h : splitFirst pat s = some (pre, post)) : s = pre ++ pat ++ post := by
  induction s generalizing pre with
  | nil =>
    simp only [splitFirst] at h
    split at h
    · rename_i hp
      simp only [Option.some.injEq, Prod.mk.injEq] at h
      obtain ⟨rfl, rfl⟩ := h
      have hpat : pat = [] := by simpa [List.isEmpty_iff] using hp
      simp [hpat]
    · exact absurd h (by simp)
  | cons c cs ih =>
    simp only [splitFirst] at h
    split at h
    · rename_i hp
      simp only [Option.some.injEq, Prod.mk.injEq] at h
      obtain ⟨rfl, rfl⟩ := h
      have hpre : pat <+: c :: cs := by
        simpa [List.isPrefixOf_iff_prefix] using hp
      have heq := List.prefix_iff_eq_append.mp hpre
      simpa using heq.symm
    · rename_i hp
      cases hsf : splitFirst pat cs with
      | none => rw [hsf] at h; exact absurd h (by simp)
      | some pr =>
        obtain ⟨pre', post'⟩ := pr
        rw [hsf] at h
        simp only [Option.some.injEq, Prod.mk.injEq] at h
        obtain ⟨rfl, rfl⟩ := h
        have := ih pre' hsf
        simp [this]

theorem splitFirst_none (pat s : List Char) (h : splitFirst pat s = none) :
    ∀ i, ¬ occursAt pat s i := by
  induction s with
  | nil =>
    intro i
    simp only [splitFirst] at h
    split at h
    · exact absurd h (by simp)
    · rename_i hp
      simp only [occursAt, List.drop_nil]
      intro hc
      have hpat : pat = [] := by
        cases pat with
        | nil => rfl
        | cons a t => simp [List.isPrefixOf] at hc
      subst hpat
      simp at hp
  | cons c cs ih =>
    intro i
    simp only [splitFirst] at h
    split at h
    · exact absurd h (by simp)
    · rename_i hp
      cases hsf : splitFirst pat cs with
      | none =>
        cases i with
        | zero => simpa [occursAt] using hp
        | succ j => simpa [occursAt] using ih hsf j
      | some pr => rw [hsf] at h; cases pr; exact absurd h (by simp)

theorem splitFirst_earliest (pat s pre post : List Char)
    (h : splitFirst pat s = some (pre, post)) :
    ∀ j < pre.length, ¬ occursAt pat s j := by
  induction s generalizing pre with
  | nil =>
    intro j hj
    simp only [splitFirst] at h
    split at h
    · simp only [Option.some.injEq, Prod.mk.injEq] at h
      obtain ⟨rfl, rfl⟩ := h
      simp at hj
    · exact absurd h (by simp)
  | cons c cs ih =>
    intro j hj
    simp only [splitFirst] at h
    split at h
    · simp only [Option.some.injEq, Prod.mk.injEq] at h
      obtain ⟨rfl, rfl⟩ := h
      simp at hj
    · rename_i hp
      cases hsf : splitFirst pat cs with
      | none => rw [hsf] at h; exact absurd h (by simp)
      | some pr =>
        obtain ⟨pre', post'⟩ := pr
        rw [hsf] at h
        simp only [Option.some.injEq, Prod.mk.injEq] at h
        obtain ⟨rfl, rfl⟩ := h
        cases j with
        | zero => simpa [occursAt] using hp
        | succ i =>
          simp only [List.length_cons, Nat.succ_lt_succ_iff] at hj
          simpa [occursAt] using ih pre' hsf i hj

theorem splitFirst_occurs (pat s pre post : List Char)
    (h : splitFirst pat s = some (pre, post)) : occursAt pat s pre.length := by
  have e := splitFirst_append pat s pre post h
  subst e
  simp only [occursAt, List.append_assoc, List.drop_left]
  simp [List.isPrefixOf_iff_prefix]

theorem occursAt_shift (a t pat : List Char) (b : Nat) (h : occursAt pat t b) :
    occursAt pat (a ++ t) (a.length + b) := by
  unfold occursAt
  rw [List.drop_append_eq_append_drop]
  have h1 : List.drop (a.length + b) a = [] := List.drop_eq_nil_of_le (by omega)
  have h2 : a.length + b - a.length = b := by omega
  rw [h1, h2, List.nil_append]
  exact h

theorem subBlocks_rest_lt (s pre tail body rest : List Char)
    (h1 : splitFirst openMarker s = some (pre, tail))
    (h2 : splitFirst closeMarker tail = some (body, rest)) :
    rest.length < s.length := by
  have e1 := splitFirst_append _ _ _ _ h1
  have e2 := splitFirst_append _ _ _ _ h2
  subst e1
  subst e2
  have ho : openMarker.length = 18 := rfl
  have hc : closeMarker.length = 4 := rfl
  simp only [List.length_append]
  omega

theorem subBlocksF_fuel (repl : List Char → Except PyErr (List Char)) :
    ∀ f1 f2 s, s.length < f1 → s.length < f2 →
      subBlocksF repl f1 s = subBlocksF repl f2 s := by
  intro f1
  induction f1 with
  | zero => intro f2 s h1 _; omega
  | succ f ih =>
    intro f2 s h1 h2
    cases f2 with
    | zero => omega
    | succ g =>
      cases hso : splitFirst openMarker s with
      | none => simp [subBlocksF, hso]
      | some pr =>
        obtain ⟨pre, tail⟩ := pr
        cases hsc : splitFirst closeMarker tail with
        | none => simp [subBlocksF, hso, hsc]
        | some pr2 =>
          obtain ⟨body, rest⟩ := pr2
          have hlt := subBlocks_rest_lt s pre tail body rest hso hsc
          have hrec := ih g rest (by omega) (by omega)
          simp only [subBlocksF, hso, hsc, hrec]

theorem subBlocks_no_open (repl : List Char → Except PyErr (List Char))
    (s : List Char) (h : splitFirst openMarker s = none) :
    subBlocks repl s = .ok s := by
  simp [subBlocks, subBlocksF, h]

theorem subBlocks_no_close (repl : List Char → Except PyErr (List Char))
    (s pre tail : List Char) (h1 : splitFirst openMarker s = some (pre, tail))
    (h2 : splitFirst closeMarker tail = none) :
    subBlocks repl s = .ok s := by
  simp [subBlocks, subBlocksF, h1, h2]

theorem subBlocks_step_err (repl : List Char → Except PyErr (List Char))
    (s pre tail body rest : List Char) (e : PyErr)
    (h1 : splitFirst openMarker s = some (pre, tail))
    (h2 : splitFirst closeMarker tail = some (body, rest))
    (h3 : repl body = .error e) :
    subBlocks repl s = .error e := by
  simp [subBlocks, subBlocksF, h1, h2, h3]

theorem subBlocks_step_ok (repl : List Char → Except PyErr (List Char))
    (s pre tail body rest r : List Char)
    (h1 : splitFirst openMarker s = some (pre, tail))
    (h2 : splitFirst closeMarker tail = some (body, rest))
    (h3 : repl body = .ok r) :
    subBlocks repl s = Except.map (fun t => pre ++ r ++ t) (subBlocks repl rest) := by
  have hlt := subBlocks_rest_lt s pre tail body rest h1 h2
  have hfuel : subBlocksF repl s.length rest = subBlocks repl rest :=
    subBlocksF_fuel repl s.length (rest.length + 1) rest (by omega) (by omega)
  cases hres : subBlocks repl rest with
  | error e =>
    have hr : subBlocksF repl s.length rest = .error e := by rw [hfuel, hres]
    show subBlocksF repl (s.length + 1) s = _
    simp only [subBlocksF, h1, h2, h3, hr]
    rfl
  | ok t =>
    have hr : subBlocksF repl s.length rest = .ok t := by rw [hfuel, hres]
    show subBlocksF repl (s.length + 1) s = _
    simp only [subBlocksF, h1, h2, h3, hr]
    simp [Except.map]

theorem subBlocks_id_of_no_block (repl : List Char → Except PyErr (List Char))
    (s : List Char)
    (h : ∀ i < s.length, ∀ j < s.length,
        ¬(occursAt openMarker s i ∧ occursAt closeMarker s j ∧
          openMarker.length + i ≤ j)) :
    subBlocks repl s = .ok s := by
  cases hso : splitFirst openMarker s with
  | none => exact subBlocks_no_open repl s hso
  | some pr =>
    obtain ⟨pre, tail⟩ := pr
    cases hsc : splitFirst closeMarker tail with
    | none => exact subBlocks_no_close repl s pre tail hso hsc
    | some pr2 =>
      obtain ⟨body, rest⟩ := pr2
      exfalso
      have ho := splitFirst_occurs _ _ _ _ hso
      have hc0 := splitFirst_occurs _ _ _ _ hsc
      have e1 := splitFirst_append _ _ _ _ hso
      have e2 := splitFirst_append _ _ _ _ hsc
      have hlen : s.length =
          pre.length + openMarker.length + body.length + closeMarker.length +
            rest.length := by
        rw [e1, e2]
        simp only [List.length_append]
        omega
      have hom : openMarker.length = 18 := rfl
      have hcm : closeMarker.length = 4 := rfl
      have hcs : occursAt closeMarker s ((pre ++ openMarker).length + body.length) := by
        rw [e1]
        exact occursAt_shift (pre ++ openMarker) tail closeMarker body.length hc0
      refine h pre.length (by omega) ((pre ++ openMarker).length + body.length)
        (by simp only [List.length_append]; omega) ⟨ho, hcs, ?_⟩
      simp only [List.length_append]
      omega

theorem word_not_space (c : Char) (h : pyIsWord c = true) : pyIsSpace c = false := by
  cases hsp : pyIsSpace c with
  | false => rfl
  | true =>
    exfalso
    simp only [pyIsSpace, Bool.or_eq_true, decide_eq_true_eq] at hsp
    rcases hsp with ((((rfl | rfl) | rfl) | rfl) | rfl) | rfl <;> exact absurd h (by decide)

theorem not_break_of_word (c : Char) (h : pyIsWord c = true) : pyIsLineBreak c = false := by
  cases hb : pyIsLineBreak c with
  | false => rfl
  | true =>
    exfalso
    simp only [pyIsLineBreak, Bool.or_eq_true, decide_eq_true_eq] at hb
    rcases hb with ((((((((rfl | rfl) | rfl) | rfl) | rfl) | rfl) | rfl) | rfl) | rfl) | rfl <;>
      exact absurd h (by decide)

theorem ne_cr_of_not_break (c : Char) (h : pyIsLineBreak c = false) : ¬(c = '\r') := by
  intro hc
  subst hc
  exact absurd h (by decide)

theorem takeWhile_all_append (p : Char → Bool) (a : List Char) (x : Char)
    (t : List Char) (ha : a.all p = true) (hx : p x = false) :
    ((a ++ x :: t).takeWhile p) = a := by
  induction a with
  | nil => simp [List.takeWhile_cons, hx]
  | cons c a' ih =>
    simp only [List.all_cons, Bool.and_eq_true] at ha
    simp [List.takeWhile_cons, ha.1, ih ha.2]

theorem dropWhile_all_append (p : Char → Bool) (a : List Char) (x : Char)
    (t : List Char) (ha : a.all p = true) (hx : p x = false) :
    ((a ++ x :: t).dropWhile p) = x :: t := by
  induction a with
  | nil => simp [List.dropWhile_cons, hx]
  | cons c a' ih =>
    simp only [List.all_cons, Bool.and_eq_true] at ha
    simp [List.dropWhile_cons, ha.1, ih ha.2]

theorem dropWhile_self_idem (p : Char → Bool) (s : List Char) :
    ((s.dropWhile p).dropWhile p) = s.dropWhile p := by
  induction s with
  | nil => simp
  | cons c cs ih =>
    cases hp : p c with
    | true => simpa [List.dropWhile_cons, hp] using ih
    | false => simp [List.dropWhile_cons, hp]

theorem pyStrip_dropWhile (s : List Char) :
    pyStrip (s.dropWhile pyIsSpace) = pyStrip s := by
  simp [pyStrip, dropWhile_self_idem]

theorem splitLinesAux_cons_nobreak (c : Char) (r acc : List Char)
    (hc : pyIsLineBreak c = false) :
    splitLinesAux (c :: r) acc = splitLinesAux r (c :: acc) := by
  rw [splitLinesAux.eq_def]
  simp [hc]

theorem splitLinesAux_newline (b acc : List Char) :
    splitLinesAux ('\n' :: b) acc = acc.reverse :: splitLinesAux b [] := by
  have h1 : pyIsLineBreak '\n' = true := by decide
  cases b with
  | nil => simp [splitLinesAux, h1]
  | cons n r => simp [splitLinesAux, h1]

theorem splitLinesAux_append (a b acc : List Char) (ha : noBreaks a = true) :
    splitLinesAux (a ++ '\n' :: b) acc = (acc.reverse ++ a) :: splitLinesAux b [] := by
  induction a generalizing acc with
  | nil => simp [splitLinesAux_newline]
  | cons c a' ih =>
    simp only [noBreaks, List.all_cons, Bool.and_eq_true] at ha
    have hc : pyIsLineBreak c = false := by simpa using ha.1
    have ha' : noBreaks a' = true := by simpa [noBreaks] using ha.2
    rw [List.cons_append, splitLinesAux_cons_nobreak c _ acc hc, ih (c :: acc) ha']
    simp

theorem splitLinesAux_all (a acc : List Char) (ha : noBreaks a = true) :
    splitLinesAux a acc =
      if (acc.reverse ++ a).isEmpty then [] else [acc.reverse ++ a] := by
  induction a generalizing acc with
  | nil => cases acc <;> simp [splitLinesAux]
  | cons c a' ih =>
    simp only [noBreaks, List.all_cons, Bool.and_eq_true] at ha
    have hc : pyIsLineBreak c = false := by simpa using ha.1
    have ha' : noBreaks a' = true := by simpa [noBreaks] using ha.2
    rw [splitLinesAux_cons_nobreak c a' acc hc, ih (c :: acc) ha']
    simp

theorem pySplitLines_append (a b : List Char) (ha : noBreaks a = true) :
    pySplitLines (a ++ '\n' :: b) = a :: pySplitLines b := by
  simp [pySplitLines, splitLinesAux_append a b [] ha]

theorem pySplitLines_single (a : List Char) (ha : noBreaks a = true)
    (hne : ¬(a = [])) : pySplitLines a = [a] := by
  rw [pySplitLines, splitLinesAux_all a [] ha]
  simp [List.isEmpty_iff, hne]

theorem matchCont_four (t : List Char) (ht : ¬(t = [])) :
    matchCont ("    ".data ++ t) = some t := by
  have he : "    ".data ++ t = ' ' :: ' ' :: ' ' :: ' ' :: t := rfl
  have hsp : pyIsSpace ' ' = true := by decide
  rw [he]
  simp [matchCont, List.isEmpty_iff, ht, hsp]

theorem matchArg_keyhead (kh : Char) (kt v : List Char)
    (hk : (kh :: kt).all pyIsWord = true) :
    matchArg ((kh :: kt) ++ ':' :: v) = some (kh :: kt, v.dropWhile pyIsSpace) := by
  have hcolon : pyIsWord ':' = false := by decide
  have ht : ((kh :: kt) ++ ':' :: v).takeWhile pyIsWord = kh :: kt :=
    takeWhile_all_append pyIsWord (kh :: kt) ':' v hk hcolon
  have hd : ((kh :: kt) ++ ':' :: v).dropWhile pyIsWord = ':' :: v :=
    dropWhile_all_append pyIsWord (kh :: kt) ':' v hk hcolon
  have hs : ((kh :: kt) ++ ':' :: v).dropWhile pyIsSpace = (kh :: kt) ++ ':' :: v := by
    simp only [List.all_cons, Bool.and_eq_true] at hk
    have hw : pyIsSpace kh = false := word_not_space kh hk.1
    rw [List.cons_append, List.dropWhile_cons_of_neg (by simp [hw])]
  simp only [matchArg, hs, ht, hd]
  simp

theorem matchArg_keyline (sp kh : Char) (kt v : List Char)
    (hsp : pyIsSpace sp = true) (hk : (kh :: kt).all pyIsWord = true) :
    matchArg (sp :: ((kh :: kt) ++ ':' :: v)) = some (kh :: kt, v.dropWhile pyIsSpace) := by
  have hs : (sp :: ((kh :: kt) ++ ':' :: v)).dropWhile pyIsSpace =
      ((kh :: kt) ++ ':' :: v).dropWhile pyIsSpace := by
    rw [List.dropWhile_cons_of_pos (by simp [hsp])]
  have hk2 := matchArg_keyhead kh kt v hk
  simp only [matchArg, hs] at hk2 ⊢
  exact hk2

theorem dictGet_nil {α : Type} (k : List Char) : dictGet ([] : List (List Char × α)) k = none :=
  rfl

theorem dictGet_cons_ne {α : Type} (q : List Char × α) (m : List (List Char × α))
    (k' : List Char) (h : ¬(q.1 = k')) : dictGet (q :: m) k' = dictGet m k' := by
  simp only [dictGet]
  rw [List.find?_cons_of_neg _ (by simpa using h)]

theorem dictGet_cons_self {α : Type} (q : List Char × α) (m : List (List Char × α))
    (k' : List Char) (h : q.1 = k') : dictGet (q :: m) k' = some q.2 := by
  simp only [dictGet]
  rw [List.find?_cons_of_pos _ (by simpa using h)]
  rfl

theorem dictGet_mapSet_ne {α : Type} (m : List (List Char × α)) (k k' : List Char)
    (v : α) (h : ¬(k' = k)) :
    dictGet (m.map (fun q => if q.1 = k then (k, v) else q)) k' = dictGet m k' := by
  have hkk : ¬(((k, v) : List Char × α).1 = k') := fun hc => h (hc.symm)
  induction m with
  | nil => simp
  | cons q m' ih =>
    by_cases hq : q.1 = k
    · rw [List.map_cons, if_pos hq, dictGet_cons_ne _ _ _ hkk,
        dictGet_cons_ne q m' k' (by rw [hq]; exact fun hc => h hc.symm), ih]
    · by_cases hq' : q.1 = k'
      · rw [List.map_cons, if_neg hq, dictGet_cons_self q _ k' hq',
          dictGet_cons_self q m' k' hq']
      · rw [List.map_cons, if_neg hq, dictGet_cons_ne q _ k' hq',
          dictGet_cons_ne q m' k' hq', ih]

theorem dictGet_append_ne {α : Type} (m : List (List Char × α)) (k k' : List Char)
    (v : α) (h : ¬(k' = k)) : dictGet (m ++ [(k, v)]) k' = dictGet m k' := by
  have hkk : ¬(((k, v) : List Char × α).1 = k') := fun hc => h (hc.symm)
  induction m with
  | nil => rw [List.nil_append, dictGet_cons_ne _ _ _ hkk]
  | cons q m' ih =>
    by_cases hq : q.1 = k'
    · rw [List.cons_append, dictGet_cons_self q _ k' hq, dictGet_cons_self q m' k' hq]
    · rw [List.cons_append, dictGet_cons_ne q _ k' hq, dictGet_cons_ne q m' k' hq, ih]

theorem dictGet_mapSet_self {α : Type} (m : List (List Char × α)) (k : List Char)
    (v : α) (hm : (dictGet m k).isSome = true) :
    dictGet (m.map (fun q => if q.1 = k then (k, v) else q)) k = some v := by
  induction m with
  | nil => simp [dictGet] at hm
  | cons q m' ih =>
    by_cases hq : q.1 = k
    · rw [List.map_cons, if_pos hq, dictGet_cons_self _ _ _ rfl]
    · rw [dictGet_cons_ne q m' k hq] at hm
      rw [List.map_cons, if_neg hq, dictGet_cons_ne q _ k hq, ih hm]

theorem dictGet_append_self {α : Type} (m : List (List Char × α)) (k : List Char)
    (v : α) (hm : dictGet m k = none) : dictGet (m ++ [(k, v)]) k = some v := by
  induction m with
  | nil => rw [List.nil_append, dictGet_cons_self _ _ _ rfl]
  | cons q m' ih =>
    by_cases hq : q.1 = k
    · rw [dictGet_cons_self q m' k hq] at hm
      exact absurd hm (by simp)
    · rw [dictGet_cons_ne q m' k hq] at hm
      rw [List.cons_append, dictGet_cons_ne q _ k hq, ih hm]

theorem find_isSome_iff_dictGet {α : Type} (m : List (List Char × α)) (k : List Char) :
    (List.find? (fun q => q.1 = k) m).isSome = (dictGet m k).isSome := by
  simp [dictGet]

theorem dictGet_setKey_self {α : Type} (m : List (List Char × α)) (k : List Char)
    (v : α) : dictGet (setKey m k v) k = some v := by
  by_cases hm : (List.find? (fun q : List Char × α => q.1 = k) m).isSome = true
  · have hsk : setKey m k v = m.map (fun q => if q.1 = k then (k, v) else q) := by
      simp [setKey, hm]
    rw [hsk]
    exact dictGet_mapSet_self m k v (by rw [← find_isSome_iff_dictGet]; exact hm)
  · have hsk : setKey m k v = m ++ [(k, v)] := by
      simp [setKey, hm]
    rw [hsk]
    refine dictGet_append_self m k v ?_
    rw [find_isSome_iff_dictGet] at hm
    exact Option.not_isSome_iff_eq_none.mp (by simpa using hm)

theorem dictGet_setKey_ne {α : Type} (m : List (List Char × α)) (k k' : List Char)
    (v : α) (h : ¬(k' = k)) : dictGet (setKey m k v) k' = dictGet m k' := by
  by_cases hm : (List.find? (fun q : List Char × α => q.1 = k) m).isSome = true
  · have hsk : setKey m k v = m.map (fun q => if q.1 = k then (k, v) else q) := by
      simp [setKey, hm]
    rw [hsk]
    exact dictGet_mapSet_ne m k k' v h
  · have hsk : setKey m k v = m ++ [(k, v)] := by
      simp [setKey, hm]
    rw [hsk]
    exact dictGet_append_ne m k k' v h

theorem extractLoop_key_val (l : List Char) (ls : List (List Char))
    (args : List (List Char × RawVal)) (tips : List (List Char))
    (ck : Option (List Char)) (k v : List Char) (hA : matchArg l = some (k, v))
    (hv : (pyStrip v).isEmpty = false) :
    extractLoop (l :: ls) args tips ck =
      extractLoop ls (setKey args k (.str (pyStrip v))) tips (some k) := by
  simp [extractLoop, hA, hv]

theorem extractLoop_key_blank_tips (l : List Char) (ls : List (List Char))
    (args : List (List Char × RawVal)) (tips : List (List Char))
    (ck : Option (List Char)) (v : List Char)
    (hA : matchArg l = some ("tips".data, v)) (hv : (pyStrip v).isEmpty = true) :
    extractLoop (l :: ls) args tips ck =
      extractLoop ls (setKey args "tips".data (.lst [])) tips (some "tips".data) := by
  simp [extractLoop, hA, hv]

theorem extractLoop_key_blank_other (l : List Char) (ls : List (List Char))
    (args : List (List Char × RawVal)) (tips : List (List Char))
    (ck : Option (List Char)) (k v : List Char) (hA : matchArg l = some (k, v))
    (hv : (pyStrip v).isEmpty = true) (hk : ¬(k = "tips".data)) :
    extractLoop (l :: ls) args tips ck = extractLoop ls args tips (some k) := by
  simp [extractLoop, hA, hv, hk]

theorem extractLoop_cont (l : List Char) (ls : List (List Char))
    (args : List (List Char × RawVal)) (tips : List (List Char)) (t : List Char)
    (hA : matchArg l = none) (hC : matchCont l = some t) :
    extractLoop (l :: ls) args tips (some "tips".data) =
      extractLoop ls args (tips ++ [pyStrip t]) (some "tips".data) := by
  simp [extractLoop, hA, hC]

theorem extractLoop_cont_none (l : List Char) (ls : List (List Char))
    (args : List (List Char × RawVal)) (tips : List (List Char))
    (hA : matchArg l = none) (hC : matchCont l = none) :
    extractLoop (l :: ls) args tips (some "tips".data) =
      extractLoop ls args tips (some "tips".data) := by
  simp [extractLoop, hA, hC]

theorem extractLoop_other (l : List Char) (ls : List (List Char))
    (args : List (List Char × RawVal)) (tips : List (List Char))
    (ck : Option (List Char)) (hA : matchArg l = none)
    (hck : ¬(ck = some "tips".data)) :
    extractLoop (l :: ls) args tips ck = extractLoop ls args tips ck := by
  simp [extractLoop, hA, hck]

theorem extractLoop_accum (ts ls : List (List Char))
    (args : List (List Char × RawVal)) (tips : List (List Char))
    (hts : ∀ t ∈ ts, ¬(t = []) ∧ matchArg ("    ".data ++ t) = none) :
    extractLoop ((ts.map (fun t => "    ".data ++ t)) ++ ls) args tips
        (some "tips".data) =
      extractLoop ls args (tips ++ ts.map pyStrip) (some "tips".data) := by
  induction ts generalizing tips with
  | nil => simp
  | cons t ts' ih =>
    obtain ⟨ht0, hA⟩ := hts t (by simp)
    have hC := matchCont_four t ht0
    rw [List.map_cons, List.cons_append]
    rw [extractLoop_cont _ _ _ _ _ hA hC,
      ih (tips ++ [pyStrip t]) (fun u hu => hts u (by simp [hu]))]
    have he : (tips ++ [pyStrip t]) ++ ts'.map pyStrip =
        tips ++ (pyStrip t :: ts'.map pyStrip) := by simp
    rw [he, List.map_cons]

theorem extractLoop_ignore (ls : List (List Char))
    (args : List (List Char × RawVal)) (tips : List (List Char))
    (ck : Option (List Char)) (h : ∀ l ∈ ls, matchArg l = none)
    (hck : ¬(ck = some "tips".data)) :
    extractLoop ls args tips ck = (args, tips) := by
  induction ls with
  | nil => rfl
  | cons l ls' ih =>
    rw [extractLoop_other l ls' args tips ck (h l (by simp)) hck,
      ih (fun u hu => h u (by simp [hu]))]

theorem extractLoop_no_key (k : List Char) (hk : ¬(k = "tips".data)) :
    ∀ (ls : List (List Char)) (args : List (List Char × RawVal))
      (tips : List (List Char)) (ck : Option (List Char)),
      dictGet args k = none →
      (∀ l ∈ ls, ∀ v, matchArg l = some (k, v) → (pyStrip v).isEmpty = true) →
      dictGet (extractLoop ls args tips ck).1 k = none := by
  intro ls
  induction ls with
  | nil => intro args tips ck hargs _; exact hargs
  | cons l ls' ih =>
    intro args tips ck hargs hls
    have hls' : ∀ u ∈ ls', ∀ v, matchArg u = some (k, v) → (pyStrip v).isEmpty = true :=
      fun u hu => hls u (by simp [hu])
    cases hA : matchArg l with
    | some pr =>
      obtain ⟨k', v⟩ := pr
      cases hv : (pyStrip v).isEmpty with
      | false =>
        have hk' : ¬(k' = k) := by
          intro hc
          subst hc
          rw [hls l (by simp) v hA] at hv
          cases hv
        rw [extractLoop_key_val l ls' args tips ck k' v hA hv]
        refine ih _ _ _ ?_ hls'
        rw [dictGet_setKey_ne args k' k _ (fun hc => hk' hc.symm)]
        exact hargs
      | true =>
        by_cases hkt : k' = "tips".data
        · subst hkt
          rw [extractLoop_key_blank_tips l ls' args tips ck v hA hv]
          refine ih _ _ _ ?_ hls'
          rw [dictGet_setKey_ne args "tips".data k _ hk]
          exact hargs
        · rw [extractLoop_key_blank_other l ls' args tips ck k' v hA hv hkt]
          exact ih _ _ _ hargs hls'
    | none =>
      by_cases hck : ck = some "tips".data
      · subst hck
        cases hC : matchCont l with
        | some t =>
          rw [extractLoop_cont l ls' args tips t hA hC]
          exact ih _ _ _ hargs hls'
        | none =>
          rw [extractLoop_cont_none l ls' args tips hA hC]
          exact ih _ _ _ hargs hls'
      · rw [extractLoop_other l ls' args tips ck hA hck]
        exact ih _ _ _ hargs hls'

theorem validateArgs_shape (m : List (List Char × RawVal)) (p : List Char)
    (hm et ei : Option (List Char)) (tp : Option (List (List Char)))
    (h1 : dictGet m "path".data = some (.str p))
    (h2 : dictGet m "http_method".data = hm.map RawVal.str)
    (h3 : dictGet m "endpoint_title".data = et.map RawVal.str)
    (h4 : dictGet m "endpoint_icon".data = ei.map RawVal.str)
    (h5 : dictGet m "tips".data = tp.map RawVal.lst) :
    validateArgs m = .ok ⟨p, hm, et, ei, tp⟩ := by
  cases hm <;> cases et <;> cases ei <;> cases tp <;>
    (simp [validateArgs, optStrField, h1, h2, h3, h4, h5, Except.bind]; rfl)

theorem dropWhile_append_all (p : Char → Bool) (a b : List Char)
    (ha : a.all p = true) : (a ++ b).dropWhile p = b.dropWhile p := by
  induction a with
  | nil => rfl
  | cons c a' ih =>
    simp only [List.all_cons, Bool.and_eq_true] at ha
    rw [List.cons_append, List.dropWhile_cons_of_pos (by simp [ha.1]), ih ha.2]

theorem matchArg_spaces (sp l : List Char) (hsp : sp.all pyIsSpace = true) :
    matchArg (sp ++ l) = matchArg l := by
  simp only [matchArg, dropWhile_append_all pyIsSpace sp l hsp]

/-- Claim C2: the claim states that rendering always succeeds and emits
the ANY placeholder heading when http_method is absent.  The code
instead evaluates args.http_method.lower() on line 135 and raises
AttributeError on None before reaching the heading of line 143, whose
literal ANY fallback is therefore unreachable; the pipeline run aborts
with that exception.  This theorem records the actual behaviour at the
failing input. -/

theorem claim_C2 :
    extract_arguments "path: /users".data =
      .ok ⟨"/users".data, none, none, none, none⟩ ∧
    generate_endpoint_docs specUsers ⟨"/users".data, none, none, none, none⟩ =
      .error (.attributeError "NoneType object has no attribute lower".data) ∧
    on_page_markdown specUsers "::: docs.endpoint\npath: /users\n:::".data =
      .error (.attributeError "NoneType object has no attribute lower".data) :=
  ⟨rfl, rfl, rfl⟩

/-- Claim C7: the concrete block with path /users and http_method GET
against the spec holding summary List users and description Returns all
users. renders to a fragment whose method and path heading line (the
second-level heading of the rendering contract) contains GET, /users
and List users, followed by the description paragraph; the method is
lowercased before lookup, so a mixed-case method still resolves, while
a path of different case does not. -/

theorem claim_C7 :
    on_page_markdown specUsers
        "::: docs.endpoint\npath: /users\nhttp_method: GET\n:::".data =
      .ok fragUsers ∧
    fragUsers = headingUsers ++ "\n\n".data ++ "Returns all users.\n\n".data ∧
    containsSeq "GET".data headingUsers = true ∧
    containsSeq "/users".data headingUsers = true ∧
    containsSeq "List users".data headingUsers = true ∧
    containsSeq "Returns all users.".data fragUsers = true ∧
    generate_endpoint_docs specUsers
        ⟨"/users".data, some "GeT".data, none, none, none⟩ =
      .ok ("### <span class=\"http-get\">GeT</span>` /users` -- List users \x7b : data-toc-label=\"GeT List users\" : .styled-as-h2 \x7d\n\nReturns all users.\n\n".data) ∧
    generate_endpoint_docs specUsers
        ⟨"/Users".data, some "GET".data, none, none, none⟩ =
      .error (.attributeError "NoneType object has no attribute get".data) :=
  ⟨rfl, rfl, rfl, rfl, rfl, rfl, rfl, rfl⟩

/-- Claim C1, counterexample: a per-block spec-lookup failure is not
converted into an inline marker.  A single block whose path is absent
from the resolved spec makes the whole pipeline raise AttributeError,
and a well-formed block later in the same document is never rendered:
the run aborts with the exception instead of returning a document. -/

theorem claim_C1_cex :
    on_page_markdown specUsers
        "::: docs.endpoint\npath: /missing\nhttp_method: GET\n:::".data =
      .error (.attributeError "NoneType object has no attribute get".data) ∧
    on_page_markdown specUsers
        "::: docs.endpoint\npath: /missing\nhttp_method: GET\n:::\n::: docs.endpoint\npath: /users\nhttp_method: GET\n:::".data =
      .error (.attributeError "NoneType object has no attribute get".data) :=
  ⟨rfl, rfl⟩

/-- Claim C4, counterexample: a directive block whose tips line is
followed by exactly three four-space indented lines, the middle of
which itself has the shape of a key line, yields one tip, not three:
the key pattern of line 65 accepts leading whitespace, so the middle
line becomes a new key and ends the tips accumulation. -/

theorem claim_C4_cex :
    extract_arguments
        "path: /users\nhttp_method: GET\ntips:\n    alpha\n    note: beta\n    gamma".data =
      .ok ⟨"/users".data, some "GET".data, none, none, some ["alpha".data]⟩ ∧
    on_page_markdown specUsers
        "::: docs.endpoint\npath: /users\nhttp_method: GET\ntips:\n    alpha\n    note: beta\n    gamma\n:::".data =
      .ok (fragUsers ++ "!!! tip \"Method Tips\"\n    alpha\n\n\n".data) :=
  ⟨rfl, rfl⟩

/-- Claim C5, counterexample: an opening marker line immediately
followed by a closing marker line is not a valid block.  The block
pattern of line 105 needs one newline after the keyword and another
before the three colons, so the two-line text matches nothing and
passes through unchanged, while inserting one empty line between the
markers does match. -/

theorem claim_C5_cex :
    hasBlock "::: docs.endpoint\n:::".data = false ∧
    on_page_markdown specUsers "::: docs.endpoint\n:::".data =
      .ok "::: docs.endpoint\n:::".data ∧
    hasBlock "::: docs.endpoint\n\n:::".data = true :=
  ⟨rfl, rfl, rfl⟩

/-- Claim C1, amended: parsing and validation failures, raised as
ValueError, are converted at the pipeline boundary into the inline
marker in place of the failing block only, and scanning then continues
with the rest of the document; but the lookups of generate_endpoint_docs
raise AttributeError or TypeError, which the boundary of line 115 does
not catch, so a missing path, an absent http_method, or a method absent
under its path each aborts the whole pipeline. -/

theorem claim_C1_amended :
    (∀ spec body m, extract_arguments body = .error (.valueError m) →
      replace_docs_endpoint spec body = .ok (errMark m)) ∧
    (∀ repl s pre tail body rest r,
      splitFirst openMarker s = some (pre, tail) →
      splitFirst closeMarker tail = some (body, rest) →
      repl body = .ok r →
      subBlocks repl s = Except.map (fun t => pre ++ r ++ t) (subBlocks repl rest)) ∧
    (∀ spec args, dictGet spec.paths args.path = none →
      generate_endpoint_docs spec args =
        .error (.attributeError "NoneType object has no attribute get".data)) ∧
    (∀ spec args methods, dictGet spec.paths args.path = some methods →
      args.http_method = none →
      generate_endpoint_docs spec args =
        .error (.attributeError "NoneType object has no attribute lower".data)) ∧
    (∀ spec args methods hm, dictGet spec.paths args.path = some methods →
      args.http_method = some hm → dictGet methods (pyLower hm) = none →
      generate_endpoint_docs spec args =
        .error (.typeError "NoneType object is not subscriptable".data)) ∧
    (∀ spec body args e, extract_arguments body = .ok args →
      generate_endpoint_docs spec args = .error e →
      (∀ m, ¬(e = PyErr.valueError m)) →
      replace_docs_endpoint spec body = .error e) ∧
    (∀ repl s pre tail body rest e,
      splitFirst openMarker s = some (pre, tail) →
      splitFirst closeMarker tail = some (body, rest) →
      repl body = .error e → subBlocks repl s = .error e) := by
  refine ⟨?_, ?_, ?_, ?_, ?_, ?_, ?_⟩
  · intro spec body m h
    simp [replace_docs_endpoint, h, errMark]
  · intro repl s pre tail body rest r h1 h2 h3
    exact subBlocks_step_ok repl s pre tail body rest r h1 h2 h3
  · intro spec args h
    simp [generate_endpoint_docs, h]
  · intro spec args methods h1 h2
    simp [generate_endpoint_docs, h1, h2]
  · intro spec args methods hm h1 h2 h3
    simp [generate_endpoint_docs, h1, h2, h3]
  · intro spec body args e h1 h2 h3
    cases e with
    | valueError m => exact absurd rfl (h3 m)
    | attributeError m => simp [replace_docs_endpoint, h1, h2]
    | typeError m => simp [replace_docs_endpoint, h1, h2]
  · intro repl s pre tail body rest e h1 h2 h3
    exact subBlocks_step_err repl s pre tail body rest e h1 h2 h3

theorem claim_C1_amended_witness :
    extract_arguments "http_method: GET".data =
      .error (.valueError missingPathMsg) ∧
    replace_docs_endpoint specUsers "http_method: GET".data =
      .ok (errMark missingPathMsg) ∧
    generate_endpoint_docs specUsers
        ⟨"/missing".data, some "GET".data, none, none, none⟩ =
      .error (.attributeError "NoneType object has no attribute get".data) ∧
    subBlocks (replace_docs_endpoint specUsers)
        "::: docs.endpoint\npath: /missing\nhttp_method: GET\n:::".data =
      .error (.attributeError "NoneType object has no attribute get".data) :=
  ⟨rfl,
   claim_C1_amended.1 specUsers "http_method: GET".data missingPathMsg rfl,
   claim_C1_amended.2.2.1 specUsers
     ⟨"/missing".data, some "GET".data, none, none, none⟩ rfl,
   claim_C1_amended.2.2.2.2.2.2 (replace_docs_endpoint specUsers) _ []
     "path: /missing\nhttp_method: GET\n:::".data
     "path: /missing\nhttp_method: GET".data [] _ rfl rfl rfl⟩

/-- Claim C5, amended: every match of the block pattern starts at the
leftmost occurrence of the opening marker, ends at the nearest
following occurrence of the closing marker, consumes exactly that span
(so matches are non-overlapping and in document order, scanning
resuming after the consumed span), and the body may be empty when an
empty line separates the markers; but the opening marker line
immediately followed by the closing marker line is not matched, since
the newline of the opening marker and the newline of the closing
marker are distinct characters. -/

theorem claim_C5_amended :
    (∀ repl s pre tail body rest,
      splitFirst openMarker s = some (pre, tail) →
      splitFirst closeMarker tail = some (body, rest) →
      s = pre ++ openMarker ++ body ++ closeMarker ++ rest ∧
      (∀ j < pre.length, ¬ occursAt openMarker s j) ∧
      (∀ j < body.length, ¬ occursAt closeMarker tail j) ∧
      (∀ e, repl body = .error e → subBlocks repl s = .error e) ∧
      (∀ r, repl body = .ok r →
        subBlocks repl s =
          Except.map (fun t => pre ++ r ++ t) (subBlocks repl rest))) ∧
    hasBlock "::: docs.endpoint\n\n:::".data = true ∧
    hasBlock "::: docs.endpoint\n:::".data = false := by
  refine ⟨?_, rfl, rfl⟩
  intro repl s pre tail body rest h1 h2
  have e1 := splitFirst_append _ _ _ _ h1
  have e2 := splitFirst_append _ _ _ _ h2
  refine ⟨?_, splitFirst_earliest _ _ _ _ h1, splitFirst_earliest _ _ _ _ h2,
    ?_, ?_⟩
  · rw [e1, e2]
    simp [List.append_assoc]
  · intro e he
    exact subBlocks_step_err repl s pre tail body rest e h1 h2 he
  · intro r hr
    exact subBlocks_step_ok repl s pre tail body rest r h1 h2 hr

theorem claim_C5_amended_witness :
    replace_docs_endpoint specUsers "path: /users\nhttp_method: GET".data =
      .ok fragUsers ∧
    subBlocks (replace_docs_endpoint specUsers)
        "::: docs.endpoint\npath: /users\nhttp_method: GET\n:::".data =
      Except.map (fun t => [] ++ fragUsers ++ t)
        (subBlocks (replace_docs_endpoint specUsers) []) :=
  ⟨rfl,
   (claim_C5_amended.1 (replace_docs_endpoint specUsers)
     "::: docs.endpoint\npath: /users\nhttp_method: GET\n:::".data []
     "path: /users\nhttp_method: GET\n:::".data
     "path: /users\nhttp_method: GET".data [] rfl rfl).2.2.2.2 fragUsers rfl⟩

/-- Claim C6: a document in which no opening marker occurrence is
followed by a closing marker occurrence passes through the pipeline
unchanged, and when a block does match, the text before it is emitted
verbatim, the span itself is replaced, and only the text after the
consumed span is scanned further, so all text outside matched spans is
passed through unchanged. -/

theorem claim_C6 :
    (∀ spec s,
      (∀ i < s.length, ∀ j < s.length,
        ¬(occursAt openMarker s i ∧ occursAt closeMarker s j ∧
          openMarker.length + i ≤ j)) →
      on_page_markdown spec s = .ok s) ∧
    (∀ spec s pre tail body rest r,
      splitFirst openMarker s = some (pre, tail) →
      splitFirst closeMarker tail = some (body, rest) →
      replace_docs_endpoint spec body = .ok r →
      s = pre ++ openMarker ++ body ++ closeMarker ++ rest ∧
      on_page_markdown spec s =
        Except.map (fun t => pre ++ r ++ t) (on_page_markdown spec rest)) := by
  constructor
  · intro spec s h
    exact subBlocks_id_of_no_block (replace_docs_endpoint spec) s h
  · intro spec s pre tail body rest r h1 h2 h3
    have e1 := splitFirst_append _ _ _ _ h1
    have e2 := splitFirst_append _ _ _ _ h2
    constructor
    · rw [e1, e2]
      simp [List.append_assoc]
    · exact subBlocks_step_ok (replace_docs_endpoint spec) s pre tail body rest r
        h1 h2 h3

theorem claim_C6_witness :
    on_page_markdown specUsers "a page with no endpoint directives".data =
      .ok "a page with no endpoint directives".data ∧
    on_page_markdown specUsers
        "before\n::: docs.endpoint\npath: /users\nhttp_method: GET\n:::\nafter".data =
      Except.map (fun t => "before\n".data ++ fragUsers ++ t)
        (on_page_markdown specUsers "\nafter".data) :=
  ⟨claim_C6.1 specUsers "a page with no endpoint directives".data (by decide),
   (claim_C6.2 specUsers
     "before\n::: docs.endpoint\npath: /users\nhttp_method: GET\n:::\nafter".data
     "before\n".data "path: /users\nhttp_method: GET\n:::\nafter".data
     "path: /users\nhttp_method: GET".data "\nafter".data fragUsers
     rfl rfl rfl).2⟩

theorem replace_of_valueError (spec : ResolvedSpec) (body m : List Char)
    (h : extract_arguments body = .error (.valueError m)) :
    replace_docs_endpoint spec body = .ok (errMark m) := by
  simp [replace_docs_endpoint, h, errMark]

theorem extractRaw_no_path (body : List Char)
    (h : (pySplitLines body).all (fun l => !pathKeyLine l) = true) :
    dictGet (extractRaw body) "path".data = none := by
  have hcore : dictGet (extractLoop (pySplitLines body) [] [] none).1 "path".data =
      none := by
    refine extractLoop_no_key "path".data (by decide) (pySplitLines body) [] [] none
      rfl ?_
    intro l hl v hv
    have hp : (!pathKeyLine l) = true := List.all_eq_true.mp h l hl
    rw [Bool.not_eq_true'] at hp
    simp only [pathKeyLine, hv] at hp
    simpa using hp
  simp only [extractRaw]
  split
  · rw [dictGet_setKey_ne _ _ _ _ (by decide)]
    exact hcore
  · exact hcore

theorem extract_arguments_no_path (body : List Char)
    (h : (pySplitLines body).all (fun l => !pathKeyLine l) = true) :
    extract_arguments body = .error (.valueError missingPathMsg) := by
  have hno := extractRaw_no_path body h
  have hval : validateArgs (extractRaw body) =
      .error (fieldErrMsg "path".data "Field required".data) := by
    simp [validateArgs, hno]
    rfl
  simp [extract_arguments, hval, missingPathMsg]

/-- Claim C3: a block whose lines contain no path key with a non-blank
value fails validation with a ValueError whose message names the path
field, the pipeline substitutes the inline marker holding that message
in place of that block only, and scanning continues with the rest of
the document, so sibling blocks still render. -/

theorem claim_C3 :
    (∀ body, (pySplitLines body).all (fun l => !pathKeyLine l) = true →
      extract_arguments body = .error (.valueError missingPathMsg)) ∧
    containsSeq "path".data missingPathMsg = true ∧
    (∀ spec s pre tail body rest,
      splitFirst openMarker s = some (pre, tail) →
      splitFirst closeMarker tail = some (body, rest) →
      (pySplitLines body).all (fun l => !pathKeyLine l) = true →
      on_page_markdown spec s =
        Except.map (fun t => pre ++ errMark missingPathMsg ++ t)
          (on_page_markdown spec rest)) := by
  refine ⟨extract_arguments_no_path, rfl, ?_⟩
  intro spec s pre tail body rest h1 h2 h3
  exact subBlocks_step_ok (replace_docs_endpoint spec) s pre tail body rest
    (errMark missingPathMsg) h1 h2
    (replace_of_valueError spec body missingPathMsg
      (extract_arguments_no_path body h3))

theorem claim_C3_witness :
    extract_arguments "http_method: GET".data =
      .error (.valueError missingPathMsg) ∧
    on_page_markdown specUsers
        "::: docs.endpoint\nhttp_method: GET\n:::\nmiddle\n::: docs.endpoint\npath: /users\nhttp_method: GET\n:::".data =
      Except.map (fun t => [] ++ errMark missingPathMsg ++ t)
        (on_page_markdown specUsers
          "\nmiddle\n::: docs.endpoint\npath: /users\nhttp_method: GET\n:::".data) ∧
    on_page_markdown specUsers
        "\nmiddle\n::: docs.endpoint\npath: /users\nhttp_method: GET\n:::".data =
      .ok ("\nmiddle\n".data ++ fragUsers) :=
  ⟨claim_C3.1 "http_method: GET".data (by decide),
   claim_C3.2.2 specUsers
     "::: docs.endpoint\nhttp_method: GET\n:::\nmiddle\n::: docs.endpoint\npath: /users\nhttp_method: GET\n:::".data
     [] "http_method: GET\n:::\nmiddle\n::: docs.endpoint\npath: /users\nhttp_method: GET\n:::".data
     "http_method: GET".data
     "\nmiddle\n::: docs.endpoint\npath: /users\nhttp_method: GET\n:::".data
     rfl rfl (by decide),
   rfl⟩

theorem noBreaks_append (a b : List Char) :
    noBreaks (a ++ b) = (noBreaks a && noBreaks b) := by
  simp [noBreaks, List.all_append]

theorem goodTip_spec (t : List Char) (h : goodTip t = true) :
    ¬(t = []) ∧ noBreaks t = true ∧ matchArg ("    ".data ++ t) = none := by
  simp only [goodTip, Bool.and_eq_true, Bool.not_eq_true',
    Option.isNone_iff_eq_none] at h
  obtain ⟨⟨h1, h2⟩, h3⟩ := h
  refine ⟨?_, h2, h3⟩
  intro hc
  subst hc
  simp at h1

theorem pySplitLines_join (a : List Char) (ls : List (List Char))
    (ha : noBreaks a = true) (ha0 : ¬(a = []))
    (hls : ∀ l ∈ ls, noBreaks l = true ∧ ¬(l = [])) :
    pySplitLines (a ++ joinLines ls) = a :: ls := by
  induction ls generalizing a with
  | nil =>
    simp only [joinLines, List.append_nil]
    exact pySplitLines_single a ha ha0
  | cons l ls' ih =>
    simp only [joinLines]
    rw [pySplitLines_append a (l ++ joinLines ls') ha]
    rw [ih l (hls l (by simp)).1 (hls l (by simp)).2
      (fun u hu => hls u (by simp [hu]))]

theorem generate_users_tips (x : List Char) (xs : List (List Char)) :
    generate_endpoint_docs specUsers
        ⟨"/users".data, some "GET".data, none, none, some (x :: xs)⟩ =
      .ok (fragUsers ++
        ("!!! tip \"Method Tips\"\n".data ++ tipsLines (x :: xs)) ++
        "\n\n".data) := by
  show Except.ok
      (((([] : List Char) ++
          "### <span class=\"http-get\">GET</span>` /users` -- List users \x7b : data-toc-label=\"GET List users\" : .styled-as-h2 \x7d\n\n".data) ++
        "Returns all users.\n\n".data) ++
        (("!!! tip \"Method Tips\"\n".data ++ tipsLines (x :: xs)) ++
          "\n\n".data)) = _
  refine congrArg Except.ok ?_
  generalize tipsLines (x :: xs) = T
  simp only [List.nil_append, List.append_assoc]
  rw [← List.append_assoc
    "### <span class=\"http-get\">GET</span>` /users` -- List users \x7b : data-toc-label=\"GET List users\" : .styled-as-h2 \x7d\n\n".data
    "Returns all users.\n\n".data]
  have hfrag :
      "### <span class=\"http-get\">GET</span>` /users` -- List users \x7b : data-toc-label=\"GET List users\" : .styled-as-h2 \x7d\n\n".data ++
        "Returns all users.\n\n".data = fragUsers := by decide
  rw [hfrag]

/-- Claim C4, amended: for a block whose tips key has a blank value and
is followed by exactly three four-space indented lines, none of which
itself has the shape of a key line, extraction yields exactly the three
stripped contents in input order and rendering emits the callout with
one four-space prefixed line per tip; a line indented by only two
spaces after the tips key is not counted as a tip, leaving the tips
list empty and the fragment without a callout. -/

theorem claim_C4 :
    (∀ t1 t2 t3 : List Char,
      goodTip t1 = true → goodTip t2 = true → goodTip t3 = true →
      extract_arguments
          ("path: /users\nhttp_method: GET\ntips:\n    ".data ++ t1 ++
            "\n    ".data ++ t2 ++ "\n    ".data ++ t3) =
        .ok ⟨"/users".data, some "GET".data, none, none,
          some [pyStrip t1, pyStrip t2, pyStrip t3]⟩ ∧
      generate_endpoint_docs specUsers
          ⟨"/users".data, some "GET".data, none, none,
            some [pyStrip t1, pyStrip t2, pyStrip t3]⟩ =
        .ok (fragUsers ++
          ("!!! tip \"Method Tips\"\n".data ++
            tipsLines [pyStrip t1, pyStrip t2, pyStrip t3]) ++ "\n\n".data) ∧
      tipsLines [pyStrip t1, pyStrip t2, pyStrip t3] =
        ("    ".data ++ pyStrip t1 ++ "\n".data) ++
          (("    ".data ++ pyStrip t2 ++ "\n".data) ++
            (("    ".data ++ pyStrip t3 ++ "\n".data) ++ []))) ∧
    (∀ u : List Char, noBreaks u = true →
      (matchArg ("  ".data ++ u)).isNone = true →
      (matchCont ("  ".data ++ u)).isNone = true →
      extract_arguments
          ("path: /users\nhttp_method: GET\ntips:\n  ".data ++ u) =
        .ok ⟨"/users".data, some "GET".data, none, none, some []⟩ ∧
      generate_endpoint_docs specUsers
          ⟨"/users".data, some "GET".data, none, none, some []⟩ =
        .ok fragUsers) := by
  constructor
  · intro t1 t2 t3 hg1 hg2 hg3
    obtain ⟨ht1, hb1, hA1⟩ := goodTip_spec t1 hg1
    obtain ⟨ht2, hb2, hA2⟩ := goodTip_spec t2 hg2
    obtain ⟨ht3, hb3, hA3⟩ := goodTip_spec t3 hg3
    have c1 : "path: /users\nhttp_method: GET\ntips:\n    ".data =
        "path: /users".data ++ '\n' :: ("http_method: GET".data ++ '\n' ::
          ("tips:".data ++ '\n' :: "    ".data)) := by decide
    have c2 : "\n    ".data = '\n' :: "    ".data := by decide
    have hb : "path: /users\nhttp_method: GET\ntips:\n    ".data ++ t1 ++
        "\n    ".data ++ t2 ++ "\n    ".data ++ t3 =
        "path: /users".data ++ joinLines
          ["http_method: GET".data, "tips:".data, "    ".data ++ t1,
           "    ".data ++ t2, "    ".data ++ t3] := by
      simp only [c1, c2, joinLines]
      simp [List.append_assoc]
    have hsplit : pySplitLines
        ("path: /users\nhttp_method: GET\ntips:\n    ".data ++ t1 ++
          "\n    ".data ++ t2 ++ "\n    ".data ++ t3) =
        ["path: /users".data, "http_method: GET".data, "tips:".data,
         "    ".data ++ t1, "    ".data ++ t2, "    ".data ++ t3] := by
      rw [hb]
      refine pySplitLines_join _ _ (by decide) (by decide) ?_
      intro l hl
      simp only [List.mem_cons, List.not_mem_nil, or_false] at hl
      rcases hl with rfl | rfl | rfl | rfl | rfl
      · exact ⟨by decide, by decide⟩
      · exact ⟨by decide, by decide⟩
      · exact ⟨by rw [noBreaks_append]; simp [hb1, show noBreaks "    ".data = true from by decide],
          by simp⟩
      · exact ⟨by rw [noBreaks_append]; simp [hb2, show noBreaks "    ".data = true from by decide],
          by simp⟩
      · exact ⟨by rw [noBreaks_append]; simp [hb3, show noBreaks "    ".data = true from by decide],
          by simp⟩
    have hts : ∀ t ∈ [t1, t2, t3], ¬(t = []) ∧ matchArg ("    ".data ++ t) = none := by
      intro t ht
      simp only [List.mem_cons, List.not_mem_nil, or_false] at ht
      rcases ht with rfl | rfl | rfl
      · exact ⟨ht1, hA1⟩
      · exact ⟨ht2, hA2⟩
      · exact ⟨ht3, hA3⟩
    have hmap : ["    ".data ++ t1, "    ".data ++ t2, "    ".data ++ t3] =
        List.map (fun t => "    ".data ++ t) [t1, t2, t3] ++
          ([] : List (List Char)) := by simp
    have hloop : extractLoop
        ["path: /users".data, "http_method: GET".data, "tips:".data,
         "    ".data ++ t1, "    ".data ++ t2, "    ".data ++ t3] [] [] none =
        ([("path".data, RawVal.str "/users".data),
          ("http_method".data, RawVal.str "GET".data),
          ("tips".data, RawVal.lst [])],
         [pyStrip t1, pyStrip t2, pyStrip t3]) := by
      rw [extractLoop_key_val "path: /users".data _ _ _ _ "path".data
          "/users".data rfl rfl]
      rw [show setKey [] "path".data (RawVal.str (pyStrip "/users".data)) =
        [("path".data, RawVal.str "/users".data)] from rfl]
      rw [extractLoop_key_val "http_method: GET".data _ _ _ _ "http_method".data
          "GET".data rfl rfl]
      rw [show setKey [("path".data, RawVal.str "/users".data)] "http_method".data
          (RawVal.str (pyStrip "GET".data)) =
        [("path".data, RawVal.str "/users".data),
         ("http_method".data, RawVal.str "GET".data)] from rfl]
      rw [extractLoop_key_blank_tips "tips:".data _ _ _ _ [] rfl rfl]
      rw [show setKey
          [("path".data, RawVal.str "/users".data),
           ("http_method".data, RawVal.str "GET".data)] "tips".data
          (RawVal.lst []) =
        [("path".data, RawVal.str "/users".data),
         ("http_method".data, RawVal.str "GET".data),
         ("tips".data, RawVal.lst [])] from rfl]
      rw [hmap, extractLoop_accum [t1, t2, t3] [] _ [] hts]
      rfl
    have hraw : extractRaw
        ("path: /users\nhttp_method: GET\ntips:\n    ".data ++ t1 ++
          "\n    ".data ++ t2 ++ "\n    ".data ++ t3) =
        [("path".data, RawVal.str "/users".data),
         ("http_method".data, RawVal.str "GET".data),
         ("tips".data, RawVal.lst [pyStrip t1, pyStrip t2, pyStrip t3])] := by
      simp only [extractRaw, hsplit, hloop]
      rfl
    have hval : validateArgs
        [("path".data, RawVal.str "/users".data),
         ("http_method".data, RawVal.str "GET".data),
         ("tips".data, RawVal.lst [pyStrip t1, pyStrip t2, pyStrip t3])] =
        .ok ⟨"/users".data, some "GET".data, none, none,
          some [pyStrip t1, pyStrip t2, pyStrip t3]⟩ :=
      validateArgs_shape _ "/users".data (some "GET".data) none none
        (some [pyStrip t1, pyStrip t2, pyStrip t3]) rfl rfl rfl rfl rfl
    refine ⟨?_, generate_users_tips (pyStrip t1) [pyStrip t2, pyStrip t3], rfl⟩
    simp only [extract_arguments, hraw, hval]
  · intro u hu hA hC
    have c1 : "path: /users\nhttp_method: GET\ntips:\n  ".data =
        "path: /users".data ++ '\n' :: ("http_method: GET".data ++ '\n' ::
          ("tips:".data ++ '\n' :: "  ".data)) := by decide
    have hb : "path: /users\nhttp_method: GET\ntips:\n  ".data ++ u =
        "path: /users".data ++ joinLines
          ["http_method: GET".data, "tips:".data, "  ".data ++ u] := by
      simp only [c1, joinLines]
      simp [List.append_assoc]
    have hsplit : pySplitLines ("path: /users\nhttp_method: GET\ntips:\n  ".data ++ u) =
        ["path: /users".data, "http_method: GET".data, "tips:".data,
         "  ".data ++ u] := by
      rw [hb]
      refine pySplitLines_join _ _ (by decide) (by decide) ?_
      intro l hl
      simp only [List.mem_cons, List.not_mem_nil, or_false] at hl
      rcases hl with rfl | rfl | rfl
      · exact ⟨by decide, by decide⟩
      · exact ⟨by decide, by decide⟩
      · exact ⟨by rw [noBreaks_append]; simp [hu, show noBreaks "  ".data = true from by decide],
          by simp⟩
    have hA' : matchArg ("  ".data ++ u) = none := by
      rw [← Option.isNone_iff_eq_none]
      exact hA
    have hC' : matchCont ("  ".data ++ u) = none := by
      rw [← Option.isNone_iff_eq_none]
      exact hC
    have hloop : extractLoop
        ["path: /users".data, "http_method: GET".data, "tips:".data,
         "  ".data ++ u] [] [] none =
        ([("path".data, RawVal.str "/users".data),
          ("http_method".data, RawVal.str "GET".data),
          ("tips".data, RawVal.lst [])], []) := by
      rw [extractLoop_key_val "path: /users".data _ _ _ _ "path".data
          "/users".data rfl rfl]
      rw [show setKey [] "path".data (RawVal.str (pyStrip "/users".data)) =
        [("path".data, RawVal.str "/users".data)] from rfl]
      rw [extractLoop_key_val "http_method: GET".data _ _ _ _ "http_method".data
          "GET".data rfl rfl]
      rw [show setKey [("path".data, RawVal.str "/users".data)] "http_method".data
          (RawVal.str (pyStrip "GET".data)) =
        [("path".data, RawVal.str "/users".data),
         ("http_method".data, RawVal.str "GET".data)] from rfl]
      rw [extractLoop_key_blank_tips "tips:".data _ _ _ _ [] rfl rfl]
      rw [show setKey
          [("path".data, RawVal.str "/users".data),
           ("http_method".data, RawVal.str "GET".data)] "tips".data
          (RawVal.lst []) =
        [("path".data, RawVal.str "/users".data),
         ("http_method".data, RawVal.str "GET".data),
         ("tips".data, RawVal.lst [])] from rfl]
      rw [extractLoop_cont_none ("  ".data ++ u) [] _ [] hA' hC']
      rfl
    have hraw : extractRaw ("path: /users\nhttp_method: GET\ntips:\n  ".data ++ u) =
        [("path".data, RawVal.str "/users".data),
         ("http_method".data, RawVal.str "GET".data),
         ("tips".data, RawVal.lst [])] := by
      simp only [extractRaw, hsplit, hloop]
      rfl
    have hval : validateArgs
        [("path".data, RawVal.str "/users".data),
         ("http_method".data, RawVal.str "GET".data),
         ("tips".data, RawVal.lst [])] =
        .ok ⟨"/users".data, some "GET".data, none, none, some []⟩ :=
      validateArgs_shape _ "/users".data (some "GET".data) none none (some [])
        rfl rfl rfl rfl rfl
    refine ⟨?_, rfl⟩
    simp only [extract_arguments, hraw, hval]

theorem claim_C4_witness :
    goodTip "alpha".data = true ∧
    goodTip "beta two".data = true ∧
    goodTip "gamma".data = true ∧
    extract_arguments
        ("path: /users\nhttp_method: GET\ntips:\n    ".data ++ "alpha".data ++
          "\n    ".data ++ "beta two".data ++ "\n    ".data ++ "gamma".data) =
      .ok ⟨"/users".data, some "GET".data, none, none,
        some [pyStrip "alpha".data, pyStrip "beta two".data, pyStrip "gamma".data]⟩ ∧
    extract_arguments
        ("path: /users\nhttp_method: GET\ntips:\n  ".data ++ "half indented".data) =
      .ok ⟨"/users".data, some "GET".data, none, none, some []⟩ :=
  ⟨by decide, by decide, by decide,
   (claim_C4.1 "alpha".data "beta two".data "gamma".data (by decide) (by decide)
     (by decide)).1,
   (claim_C4.2 "half indented".data (by decide) (by decide) (by decide)).1⟩

theorem noBreaks_of_word (k : List Char) (h : k.all pyIsWord = true) :
    noBreaks k = true := by
  simp only [noBreaks, List.all_eq_true] at h ⊢
  intro c hc
  simpa using not_break_of_word c (h c hc)

theorem pySplitLines_contLines (ts : List (List Char))
    (hts : ∀ t ∈ ts, goodTip t = true) (hne : ¬(ts = [])) :
    pySplitLines (contLines ts) = ts.map (fun t => "    ".data ++ t) := by
  induction ts with
  | nil => exact absurd rfl hne
  | cons t ts' ih =>
    obtain ⟨ht0, hb0, _⟩ := goodTip_spec t (hts t (by simp))
    have hnb : noBreaks ("    ".data ++ t) = true := by
      rw [noBreaks_append]
      simp [hb0, show noBreaks "    ".data = true from by decide]
    cases ts' with
    | nil =>
      rw [show contLines [t] = "    ".data ++ t from rfl]
      rw [pySplitLines_single _ hnb (by simp)]
      rfl
    | cons t2 ts'' =>
      rw [show contLines (t :: t2 :: ts'') =
        ("    ".data ++ t) ++ '\n' :: contLines (t2 :: ts'') from rfl]
      rw [pySplitLines_append _ _ hnb]
      rw [ih (fun u hu => hts u (by simp [hu])) (by simp)]
      rfl

/-- Claim C8: when the tips key line carries a non-blank inline value
and is followed by at least one continuation line, the continuation
lines are still accumulated (the current key is tips), and the final
overwrite of line 93 replaces the inline string value with the
accumulated list, so the parsed tips value is exactly the ordered list
of stripped continuation contents and the inline value is gone. -/

theorem claim_C8 :
    ∀ (v : List Char) (ts : List (List Char)),
      noBreaks v = true → (pyStrip v).isEmpty = false → ¬(ts = []) →
      (∀ t ∈ ts, goodTip t = true) →
      extract_arguments
          ("path: /users\ntips: ".data ++ v ++ "\n".data ++ contLines ts) =
        .ok ⟨"/users".data, none, none, none, some (ts.map pyStrip)⟩ := by
  intro v ts hv hvs hne hts
  have c1 : "path: /users\ntips: ".data =
      "path: /users".data ++ '\n' :: "tips: ".data := by decide
  have hb : "path: /users\ntips: ".data ++ v ++ "\n".data ++ contLines ts =
      "path: /users".data ++ '\n' ::
        (("tips: ".data ++ v) ++ '\n' :: contLines ts) := by
    simp only [c1, show "\n".data = ['\n'] from rfl]
    simp [List.append_assoc]
  have hnb2 : noBreaks ("tips: ".data ++ v) = true := by
    rw [noBreaks_append]
    simp [hv, show noBreaks "tips: ".data = true from by decide]
  have hsplit : pySplitLines
      ("path: /users\ntips: ".data ++ v ++ "\n".data ++ contLines ts) =
      "path: /users".data :: ("tips: ".data ++ v) ::
        ts.map (fun t => "    ".data ++ t) := by
    rw [hb, pySplitLines_append _ _ (by decide),
      pySplitLines_append _ _ hnb2, pySplitLines_contLines ts hts hne]
  have hA2 : matchArg ("tips: ".data ++ v) =
      some ("tips".data, v.dropWhile pyIsSpace) := by
    have e : "tips: ".data ++ v = ('t' :: "ips".data) ++ ':' :: (' ' :: v) := rfl
    rw [e, matchArg_keyhead 't' "ips".data (' ' :: v) (by decide)]
    rw [List.dropWhile_cons_of_pos (by decide)]
  have hv2 : (pyStrip (v.dropWhile pyIsSpace)).isEmpty = false := by
    rw [pyStrip_dropWhile]
    exact hvs
  obtain ⟨t0, ts', rfl⟩ : ∃ t0 ts', ts = t0 :: ts' := by
    cases ts with
    | nil => exact absurd rfl hne
    | cons a b => exact ⟨a, b, rfl⟩
  have hts' : ∀ t ∈ t0 :: ts', ¬(t = []) ∧ matchArg ("    ".data ++ t) = none := by
    intro t ht
    obtain ⟨h1, _, h3⟩ := goodTip_spec t (hts t ht)
    exact ⟨h1, h3⟩
  have hloop : extractLoop
      ("path: /users".data :: ("tips: ".data ++ v) ::
        (t0 :: ts').map (fun t => "    ".data ++ t)) [] [] none =
      ([("path".data, RawVal.str "/users".data),
        ("tips".data, RawVal.str (pyStrip v))],
       (t0 :: ts').map pyStrip) := by
    rw [extractLoop_key_val "path: /users".data _ _ _ _ "path".data
        "/users".data rfl rfl]
    rw [show setKey [] "path".data (RawVal.str (pyStrip "/users".data)) =
      [("path".data, RawVal.str "/users".data)] from rfl]
    rw [extractLoop_key_val ("tips: ".data ++ v) _ _ _ _ "tips".data
        (v.dropWhile pyIsSpace) hA2 hv2]
    rw [show setKey [("path".data, RawVal.str "/users".data)] "tips".data
        (RawVal.str (pyStrip (v.dropWhile pyIsSpace))) =
      [("path".data, RawVal.str "/users".data),
       ("tips".data, RawVal.str (pyStrip (v.dropWhile pyIsSpace)))] from rfl]
    rw [pyStrip_dropWhile]
    rw [show (t0 :: ts').map (fun t => "    ".data ++ t) =
      (t0 :: ts').map (fun t => "    ".data ++ t) ++ ([] : List (List Char))
      from by simp]
    rw [extractLoop_accum (t0 :: ts') [] _ [] hts']
    rfl
  have hraw : extractRaw
      ("path: /users\ntips: ".data ++ v ++ "\n".data ++ contLines (t0 :: ts')) =
      [("path".data, RawVal.str "/users".data),
       ("tips".data, RawVal.lst ((t0 :: ts').map pyStrip))] := by
    simp only [extractRaw, hsplit, hloop]
    rfl
  have hval : validateArgs
      [("path".data, RawVal.str "/users".data),
       ("tips".data, RawVal.lst ((t0 :: ts').map pyStrip))] =
      .ok ⟨"/users".data, none, none, none, some ((t0 :: ts').map pyStrip)⟩ :=
    validateArgs_shape _ "/users".data none none none
      (some ((t0 :: ts').map pyStrip)) rfl rfl rfl rfl rfl
  simp only [extract_arguments, hraw, hval]

theorem claim_C8_witness :
    noBreaks "inline value".data = true ∧
    (pyStrip "inline value".data).isEmpty = false ∧
    (∀ t ∈ ["tip one".data, "tip two".data], goodTip t = true) ∧
    extract_arguments
        ("path: /users\ntips: ".data ++ "inline value".data ++ "\n".data ++
          contLines ["tip one".data, "tip two".data]) =
      .ok ⟨"/users".data, none, none, none,
        some (["tip one".data, "tip two".data].map pyStrip)⟩ :=
  ⟨by decide, by decide, by decide,
   claim_C8 "inline value".data ["tip one".data, "tip two".data]
     (by decide) (by decide) (by decide) (by decide)⟩

theorem junkLine_spec (l : List Char) (h : junkLine l = true) :
    (∃ k v, matchArg l = some (k, v) ∧ recognizedKeys.contains k = false) ∧
      noBreaks l = true ∧ ¬(l = []) := by
  cases hA : matchArg l with
  | none => simp [junkLine, hA] at h
  | some pr =>
    obtain ⟨k, v⟩ := pr
    simp only [junkLine, hA, Bool.and_eq_true, Bool.not_eq_true'] at h
    refine ⟨⟨k, v, rfl, h.1⟩, h.2, ?_⟩
    intro hc
    subst hc
    rw [show matchArg ([] : List Char) = none from rfl] at hA
    cases hA

theorem extractLoop_junk (ls : List (List Char)) :
    ∀ (args : List (List Char × RawVal)) (tips : List (List Char))
      (ck : Option (List Char)), (∀ l ∈ ls, junkLine l = true) →
      (∀ f, recognizedKeys.contains f = true →
        dictGet (extractLoop ls args tips ck).1 f = dictGet args f) ∧
      (extractLoop ls args tips ck).2 = tips := by
  induction ls with
  | nil => exact fun args tips ck _ => ⟨fun f _ => rfl, rfl⟩
  | cons l ls' ih =>
    intro args tips ck h
    obtain ⟨⟨k, v, hA, hk⟩, _, _⟩ := junkLine_spec l (h l (by simp))
    have h' : ∀ u ∈ ls', junkLine u = true := fun u hu => h u (by simp [hu])
    have hne : ∀ f, recognizedKeys.contains f = true → ¬(f = k) := by
      intro f hf hc
      subst hc
      rw [hf] at hk
      cases hk
    have hkt : ¬(k = "tips".data) := by
      intro hc
      subst hc
      rw [show recognizedKeys.contains "tips".data = true from by decide] at hk
      cases hk
    cases hv : (pyStrip v).isEmpty with
    | false =>
      rw [extractLoop_key_val l ls' args tips ck k v hA hv]
      obtain ⟨hpres, htips⟩ := ih (setKey args k (.str (pyStrip v))) tips (some k) h'
      refine ⟨?_, htips⟩
      intro f hf
      rw [hpres f hf, dictGet_setKey_ne args k f _ (hne f hf)]
    | true =>
      rw [extractLoop_key_blank_other l ls' args tips ck k v hA hv hkt]
      exact ih args tips (some k) h'

/-- Claim C9: key lines whose key is none of the five recognized fields
are stored in the raw mapping but ignored by validation, so a block of
a valid path line plus any number of unrecognized key lines validates
to exactly the same EndpointArguments as the path line alone, and
rendering is therefore unaffected. -/

theorem claim_C9 :
    ∀ ls : List (List Char), (∀ l ∈ ls, junkLine l = true) →
      extract_arguments ("path: /users".data ++ joinLines ls) =
        .ok ⟨"/users".data, none, none, none, none⟩ ∧
      extract_arguments ("path: /users".data ++ joinLines ls) =
        extract_arguments "path: /users".data := by
  intro ls h
  have hsplit : pySplitLines ("path: /users".data ++ joinLines ls) =
      "path: /users".data :: ls := by
    refine pySplitLines_join _ _ (by decide) (by decide) ?_
    intro l hl
    obtain ⟨_, h2, h3⟩ := junkLine_spec l (h l hl)
    exact ⟨h2, h3⟩
  obtain ⟨hpres, htips⟩ :=
    extractLoop_junk ls [("path".data, RawVal.str "/users".data)] []
      (some "path".data) h
  have hraw : extractRaw ("path: /users".data ++ joinLines ls) =
      (extractLoop ls [("path".data, RawVal.str "/users".data)] []
        (some "path".data)).1 := by
    simp only [extractRaw, hsplit]
    rw [extractLoop_key_val "path: /users".data _ _ _ _ "path".data
        "/users".data rfl rfl]
    rw [show setKey [] "path".data (RawVal.str (pyStrip "/users".data)) =
      [("path".data, RawVal.str "/users".data)] from rfl]
    rw [htips]
    rfl
  have hval : validateArgs
      ((extractLoop ls [("path".data, RawVal.str "/users".data)] []
        (some "path".data)).1) =
      .ok ⟨"/users".data, none, none, none, none⟩ := by
    refine validateArgs_shape _ "/users".data none none none none ?_ ?_ ?_ ?_ ?_
    · rw [hpres "path".data (by decide)]
      rfl
    · rw [hpres "http_method".data (by decide)]
      rfl
    · rw [hpres "endpoint_title".data (by decide)]
      rfl
    · rw [hpres "endpoint_icon".data (by decide)]
      rfl
    · rw [hpres "tips".data (by decide)]
      rfl
  have hc1 : extract_arguments ("path: /users".data ++ joinLines ls) =
      .ok ⟨"/users".data, none, none, none, none⟩ := by
    simp only [extract_arguments, hraw, hval]
  exact ⟨hc1, hc1.trans rfl⟩

theorem claim_C9_witness :
    (∀ l ∈ ["summary: custom text".data, "color: red".data], junkLine l = true) ∧
    extract_arguments
        ("path: /users".data ++
          joinLines ["summary: custom text".data, "color: red".data]) =
      .ok ⟨"/users".data, none, none, none, none⟩ :=
  ⟨by decide,
   (claim_C9 ["summary: custom text".data, "color: red".data] (by decide)).1⟩

/-- Claim C10: inside tips accumulation, a four-space indented line
whose content has the shape of a key line is captured by the key
pattern of line 65 (whose leading whitespace class accepts the
indentation), so it becomes a new key in the raw mapping with its
stripped value, accumulation for tips ends there, and neither that
line nor any later indented line reaches the tips list. -/

theorem claim_C10 :
    ∀ k w t1 t2 : List Char,
      k.all pyIsWord = true → ¬(k = []) → ¬(k = "tips".data) →
      noBreaks w = true → (pyStrip w).isEmpty = false →
      goodTip t1 = true → goodTip t2 = true →
      dictGet (extractRaw
          ("path: /users\ntips:\n    ".data ++ t1 ++ "\n    ".data ++ k ++
            ": ".data ++ w ++ "\n    ".data ++ t2)) k =
        some (.str (pyStrip w)) ∧
      dictGet (extractRaw
          ("path: /users\ntips:\n    ".data ++ t1 ++ "\n    ".data ++ k ++
            ": ".data ++ w ++ "\n    ".data ++ t2)) "tips".data =
        some (.lst [pyStrip t1]) := by
  intro k w t1 t2 hkw hk0 hkt hw hws hg1 hg2
  obtain ⟨ht1, hb1, hA1⟩ := goodTip_spec t1 hg1
  obtain ⟨ht2, hb2, hA2⟩ := goodTip_spec t2 hg2
  obtain ⟨kh, kt, rfl⟩ : ∃ kh kt, k = kh :: kt := by
    cases k with
    | nil => exact absurd rfl hk0
    | cons a b => exact ⟨a, b, rfl⟩
  have c1 : "path: /users\ntips:\n    ".data =
      "path: /users".data ++ '\n' :: ("tips:".data ++ '\n' :: "    ".data) := by
    decide
  have c2 : "\n    ".data = '\n' :: "    ".data := by decide
  have hb : "path: /users\ntips:\n    ".data ++ t1 ++ "\n    ".data ++
      (kh :: kt) ++ ": ".data ++ w ++ "\n    ".data ++ t2 =
      "path: /users".data ++ joinLines
        ["tips:".data, "    ".data ++ t1,
         ("    ".data ++ (kh :: kt)) ++ ": ".data ++ w,
         "    ".data ++ t2] := by
    simp only [c1, c2, joinLines]
    simp [List.append_assoc]
  have hnbk : noBreaks (("    ".data ++ (kh :: kt)) ++ ": ".data ++ w) = true := by
    simp only [noBreaks_append, Bool.and_eq_true]
    refine ⟨⟨⟨by decide, noBreaks_of_word _ hkw⟩, by decide⟩, hw⟩
  have hsplit : pySplitLines
      ("path: /users\ntips:\n    ".data ++ t1 ++ "\n    ".data ++
        (kh :: kt) ++ ": ".data ++ w ++ "\n    ".data ++ t2) =
      ["path: /users".data, "tips:".data, "    ".data ++ t1,
       ("    ".data ++ (kh :: kt)) ++ ": ".data ++ w, "    ".data ++ t2] := by
    rw [hb]
    refine pySplitLines_join _ _ (by decide) (by decide) ?_
    intro l hl
    simp only [List.mem_cons, List.not_mem_nil, or_false] at hl
    rcases hl with rfl | rfl | rfl | rfl
    · exact ⟨by decide, by decide⟩
    · exact ⟨by rw [noBreaks_append]; simp [hb1, show noBreaks "    ".data = true from by decide],
        by simp⟩
    · exact ⟨hnbk, by simp⟩
    · exact ⟨by rw [noBreaks_append]; simp [hb2, show noBreaks "    ".data = true from by decide],
        by simp⟩
  have hAk : matchArg (("    ".data ++ (kh :: kt)) ++ ": ".data ++ w) =
      some (kh :: kt, w.dropWhile pyIsSpace) := by
    have e : ("    ".data ++ (kh :: kt)) ++ ": ".data ++ w =
        "    ".data ++ ((kh :: kt) ++ ':' :: (' ' :: w)) := by
      simp [List.append_assoc]
    rw [e, matchArg_spaces "    ".data _ (by decide),
      matchArg_keyhead kh kt (' ' :: w) hkw,
      List.dropWhile_cons_of_pos (by decide)]
  have hvw : (pyStrip (w.dropWhile pyIsSpace)).isEmpty = false := by
    rw [pyStrip_dropWhile]
    exact hws
  have hloop : extractLoop
      ["path: /users".data, "tips:".data, "    ".data ++ t1,
       ("    ".data ++ (kh :: kt)) ++ ": ".data ++ w, "    ".data ++ t2]
      [] [] none =
      (setKey
        [("path".data, RawVal.str "/users".data), ("tips".data, RawVal.lst [])]
        (kh :: kt) (RawVal.str (pyStrip w)),
       [pyStrip t1]) := by
    rw [extractLoop_key_val "path: /users".data _ _ _ _ "path".data
        "/users".data rfl rfl]
    rw [show setKey [] "path".data (RawVal.str (pyStrip "/users".data)) =
      [("path".data, RawVal.str "/users".data)] from rfl]
    rw [extractLoop_key_blank_tips "tips:".data _ _ _ _ [] rfl rfl]
    rw [show setKey [("path".data, RawVal.str "/users".data)] "tips".data
        (RawVal.lst []) =
      [("path".data, RawVal.str "/users".data), ("tips".data, RawVal.lst [])]
      from rfl]
    rw [extractLoop_cont ("    ".data ++ t1) _ _ _ t1 hA1
      (matchCont_four t1 ht1)]
    rw [extractLoop_key_val (("    ".data ++ (kh :: kt)) ++ ": ".data ++ w)
      _ _ _ _ (kh :: kt) (w.dropWhile pyIsSpace) hAk hvw]
    rw [pyStrip_dropWhile]
    rw [extractLoop_other ("    ".data ++ t2) _ _ _ _ hA2 ?hck]
    case hck =>
      intro hc
      simp only [Option.some.injEq] at hc
      exact hkt hc
    rfl
  have hraw : extractRaw
      ("path: /users\ntips:\n    ".data ++ t1 ++ "\n    ".data ++
        (kh :: kt) ++ ": ".data ++ w ++ "\n    ".data ++ t2) =
      setKey
        (setKey
          [("path".data, RawVal.str "/users".data), ("tips".data, RawVal.lst [])]
          (kh :: kt) (RawVal.str (pyStrip w)))
        "tips".data (RawVal.lst [pyStrip t1]) := by
    simp only [extractRaw, hloop, hsplit]
    rfl
  rw [hraw]
  constructor
  · rw [dictGet_setKey_ne _ _ _ _ hkt, dictGet_setKey_self]
  · rw [dictGet_setKey_self]

theorem claim_C10_witness :
    ("note".data).all pyIsWord = true ∧
    dictGet (extractRaw
        ("path: /users\ntips:\n    ".data ++ "alpha".data ++ "\n    ".data ++
          "note".data ++ ": ".data ++ "beta".data ++ "\n    ".data ++
          "gamma".data)) "note".data =
      some (.str (pyStrip "beta".data)) ∧
    dictGet (extractRaw
        ("path: /users\ntips:\n    ".data ++ "alpha".data ++ "\n    ".data ++
          "note".data ++ ": ".data ++ "beta".data ++ "\n    ".data ++
          "gamma".data)) "tips".data =
      some (.lst [pyStrip "alpha".data]) :=
  ⟨by decide,
   (claim_C10 "note".data "beta".data "alpha".data "gamma".data (by decide)
     (by decide) (by decide) (by decide) (by decide) (by decide) (by decide)).1,
   (claim_C10 "note".data "beta".data "alpha".data "gamma".data (by decide)
     (by decide) (by decide) (by decide) (by decide) (by decide) (by decide)).2⟩
